import Mathlib

/-!
AuraCode native bridge (`bridge.cpp`): a verification development.

The file embeds the three pieces of `bridge.cpp`:

* `base64_decode`, the decoding utility (lines 25-42);
* `AuraBridgeNode::start_server`, the set-up sequence and the accept loop
  (lines 50-98), as a function from the outcomes of the system calls to the
  trace of what the process does;
* `AuraBridgeNode::handle_connection`, the construction of the HTTP response
  (lines 101-144).

A `std::string` that holds arbitrary bytes is a `List Byte`; the strings the
handler builds from literals and decimal numbers are Lean `String`s.  A C++
`int` is an `Int`, reduced to the signed 32-bit range by `wrap32` where the
code can overflow.
-/

namespace AuraBridge

/-! ## Machine integers and bytes -/

/-- One byte of a `std::string` (an `unsigned char`). -/
abbrev Byte := Fin 256

/-- Reduction of an integer to the range of a two's-complement 32-bit `int`. -/
def wrap32 (x : Int) : Int := (x + 2147483648) % 4294967296 - 2147483648

/-- The C expression `x << k` before reduction to the width of the type. -/
def shl (x : Int) (k : Nat) : Int := x * 2 ^ k

/-- The C expression `x >> k` on a signed integer: arithmetic shift. -/
def shr (x : Int) (k : Nat) : Int := x >>> k

/-- The conversion `char(x)`: the low eight bits of `x`. -/
def toByte (x : Int) : Byte := Fin.ofNat (x % 256).toNat

/-! ## `base64_decode` (lines 25-42) -/

/-- The literal `b64_chars` of line 29. -/
def b64_chars : String :=
  "ABCDEFGHIJKLMNOPQRSTUVWXYZabcdefghijklmnopqrstuvwxyz0123456789+/"

/-- The character `b64_chars[i]` as an index into the table. -/
def b64_char (i : Nat) : Nat := (b64_chars.toList.getD i (Char.ofNat 0)).toNat

/-- The table `T` of lines 28-30: 256 entries, all `-1`, then
`T[b64_chars[i]] = i` for `i = 0, ..., 63`. -/
def T : List Int :=
  (List.range 64).foldl (fun t i => t.set (b64_char i) (i : Int)) (List.replicate 256 (-1))

/-- The lookup `T[c]` for an `unsigned char c`; the index is always in range. -/
def T_at (c : Byte) : Int := T.getD c.val (-1)

/-- The loop of lines 32-40 from the state `val`, `valb`, `out`.  The `break`
of line 33 returns the bytes produced so far. -/
def decodeLoop : List Byte → Int → Int → List Byte → List Byte
  | [], _, _, out => out
  | c :: rest, val, valb, out =>
    if T_at c = -1 then out
    else
      let val := wrap32 (wrap32 (shl val 6) + T_at c)
      let valb := valb + 6
      if 0 ≤ valb then
        decodeLoop rest val (valb - 8) (out ++ [toByte (Int.land (shr val valb.toNat) 0xFF)])
      else
        decodeLoop rest val valb out

/-- The function `base64_decode` of lines 26-42. -/
def base64_decode (input : List Byte) : List Byte :=
  decodeLoop input 0 (-8) []

/-- The loop of `base64_decode` with `val` an unbounded integer: the same text
as `decodeLoop` without the reduction to 32 bits. -/
def decodeLoopZ : List Byte → Int → Int → List Byte → List Byte
  | [], _, _, out => out
  | c :: rest, val, valb, out =>
    if T_at c = -1 then out
    else
      let val := shl val 6 + T_at c
      let valb := valb + 6
      if 0 ≤ valb then
        decodeLoopZ rest val (valb - 8) (out ++ [toByte (Int.land (shr val valb.toNat) 0xFF)])
      else
        decodeLoopZ rest val valb out

/-- The decoder `base64_decode` computed with an unbounded accumulator. -/
def base64_decode_unbounded (input : List Byte) : List Byte :=
  decodeLoopZ input 0 (-8) []

/-- The final value of `val` in `decodeLoop` (the 32-bit accumulator). -/
def finalVal : List Byte → Int → Int
  | [], val => val
  | c :: rest, val =>
    if T_at c = -1 then val else finalVal rest (wrap32 (wrap32 (shl val 6) + T_at c))

/-- The final value of `val` in `decodeLoopZ` (the unbounded accumulator). -/
def finalValZ : List Byte → Int → Int
  | [], val => val
  | c :: rest, val =>
    if T_at c = -1 then val else finalValZ rest (shl val 6 + T_at c)

/-- The shift amounts `valb` of line 37, one for each byte the loop pushes from
the state `valb`, in order. -/
def emitShifts : List Byte → Int → List Int
  | [], _ => []
  | c :: rest, valb =>
    if T_at c = -1 then []
    else if 0 ≤ valb + 6 then (valb + 6) :: emitShifts rest (valb + 6 - 8)
    else emitShifts rest (valb + 6)

/-- Membership of a byte in the 64-character alphabet: `T[c] != -1`. -/
def inAlphabet (c : Byte) : Bool := decide (T_at c ≠ -1)

/-- The byte of the alphabet character with index `i`. -/
def alph (i : Nat) : Byte := Fin.ofNat (b64_char i)

/-- The padding character `=`. -/
def padByte : Byte := 61

/-- Standard base64 encoding (RFC 4648, section 4): each group of three bytes
gives four alphabet characters; a final group of one or two bytes gives two or
three characters followed by `=` padding up to four. -/
def base64_encode : List Byte → List Byte
  | [] => []
  | [a] => [alph (a.val / 4), alph (a.val % 4 * 16), padByte, padByte]
  | [a, b] =>
    [alph (a.val / 4), alph (a.val % 4 * 16 + b.val / 16), alph (b.val % 16 * 4), padByte]
  | a :: b :: c :: rest =>
    alph (a.val / 4) :: alph (a.val % 4 * 16 + b.val / 16)
      :: alph (b.val % 16 * 4 + c.val / 64) :: alph (c.val % 64) :: base64_encode rest

/-- The bytes of an ASCII string literal. -/
def bytesOf (s : String) : List Byte := s.toList.map (fun c => Fin.ofNat c.toNat)

/-! ## Decimal output of integers -/

/-- The decimal text of an integer, as `operator<<` and `std::to_string` write
it in the C locale: a minus sign for a negative number, then the digits. -/
def to_string (x : Int) : String :=
  if x < 0 then "-" ++ Nat.repr x.natAbs else Nat.repr x.natAbs

/-! ## `AuraBridgeNode::handle_connection` (lines 101-144) -/

/-- The constant `CPP_PORT` of line 22. -/
def CPP_PORT : Int := 56000

/-- The constant `RUST_PORT` of line 23. -/
def RUST_PORT : Int := 58000

/-- The label `engine` of line 108. -/
def engine (port : Int) : String :=
  if port = RUST_PORT then "rust-native" else "cpp-native"

/-- The text `mock_output` of lines 111-116.  The C++ literals contain `\\n`:
a backslash followed by the letter n. -/
def mock_output (port : Int) : String :=
  if port = RUST_PORT then
    "Finished release [optimized] target(s) in 0.1s\\nOutput: Rust binary executed successfully on port 58000."
  else
    "Build: g++ -O3 aura_vfs_optimized\\nOutput: C++ execution completed on port 56000."

/-- The variable `exit_code` of line 118. -/
def exit_code : Int := 0

/-- The string `response_body` of lines 124-133: the pieces streamed into `ss`,
in order. -/
def response_body (port latency : Int) : String :=
  "\x7b"
    ++ "\"status\": \"success\","
    ++ "\"engine\": \"" ++ engine port ++ "\","
    ++ "\"latency_ms\": " ++ to_string latency ++ ","
    ++ "\"exit_code\": " ++ to_string exit_code ++ ","
    ++ "\"stdout\": \"" ++ mock_output port ++ "\""
    ++ "\x7d"

/-- The string `http_response` of lines 134-140; `length()` counts bytes. -/
def http_response (port latency : Int) : String :=
  "HTTP/1.1 200 OK\r\n"
    ++ "Content-Type: application/json\r\n"
    ++ "Access-Control-Allow-Origin: *\r\n"
    ++ "Content-Length: " ++ to_string (response_body port latency).utf8ByteSize ++ "\r\n"
    ++ "Connection: close\r\n\r\n"
    ++ response_body port latency

/-- The array `buffer` after lines 102-103: 30,000 zero bytes, overwritten from
the front by at most 30,000 of the bytes the connection delivers. -/
def read_buffer (incoming : List Byte) : List Byte :=
  incoming.take 30000 ++ List.replicate (30000 - (incoming.take 30000).length) 0

/-- What a handler does on its socket after the read. -/
inductive SocketAction where
  | send (socket_fd : Int) (data : String)
  | close (socket_fd : Int)
  deriving DecidableEq

/-- The function `handle_connection` of lines 101-144, given the bytes the
connection delivers and the value `latency` measured at lines 120-121. -/
def handle_connection (socket_fd port : Int) (incoming : List Byte) (latency : Int) :
    List SocketAction :=
  let _buffer := read_buffer incoming
  [SocketAction.send socket_fd (http_response port latency), SocketAction.close socket_fd]

/-- The data a handler sends on its socket. -/
def sentData : List SocketAction → List String
  | [] => []
  | SocketAction.send _ data :: more => data :: sentData more
  | SocketAction.close _ :: more => sentData more

/-! ## `AuraBridgeNode::start_server` (lines 50-98) -/

/-- The value `EXIT_FAILURE` of `<cstdlib>`. -/
def EXIT_FAILURE : Int := 1

/-- What the process does, in order.  `terminate` is the call of
`std::terminate` for an exception nothing catches; `sigpipe` is the delivery of
`SIGPIPE`, raised by the `send` of the handler of the given socket. -/
inductive Event where
  | socketCall
  | setsockoptCall (fd : Int)
  | bindCall (fd port : Int)
  | listenCall (fd backlog : Int)
  | perror (msg : String)
  | exit (code : Int)
  | banner (port : Int)
  | acceptCall (fd : Int)
  | dispatch (socket_fd port : Int)
  | terminate
  | sigpipe (socket_fd : Int)
  deriving DecidableEq

/-- The results of the four set-up calls. -/
structure SetupResults where
  socket : Int
  setsockopt : Int
  bind : Int
  listen : Int
  deriving DecidableEq

/-- What happens to the process while it is in the loop of lines 89-97.
`acceptReturns new_socket threadStarts`: the `accept` of line 90 returns
`new_socket`, and the construction of the `std::thread` of line 96, when the
code reaches it, succeeds (`true`) or throws `std::system_error` (`false`).
`handlerSigpipe socket_fd`: the `send` of line 142, called with flags 0 by the
handler of `socket_fd`, raises `SIGPIPE`, which the program never ignores nor
handles. -/
inductive Outcome where
  | acceptReturns (new_socket : Int) (threadStarts : Bool)
  | handlerSigpipe (socket_fd : Int)
  deriving DecidableEq

/-- The state of the process after it has consumed the given outcomes:
still in the loop, gone through `exit`, gone through `std::terminate`, or
killed by `SIGPIPE`. -/
inductive Status where
  | running
  | exited (code : Int)
  | aborted
  | killed
  deriving DecidableEq

/-- The loop of lines 89-97 over what happens to the process, with `live` the
sockets of the handlers dispatched so far: the events of the iterations, in
order, and the status after them.  The body has no `break`, `return` or
`exit`; the process leaves the loop when the `std::thread` constructor throws
(nothing catches the exception, so `std::terminate` ends the process) or when a
dispatched handler raises `SIGPIPE` (the default action ends the process).  A
handler that was never dispatched raises nothing. -/
def accept_loop (server_fd port : Int) : List Outcome → List Int → List Event × Status
  | [], _ => ([], Status.running)
  | Outcome.acceptReturns new_socket threadStarts :: more, live =>
    if new_socket < 0 then
      (Event.acceptCall server_fd :: Event.perror "Accept failed"
        :: (accept_loop server_fd port more live).1, (accept_loop server_fd port more live).2)
    else if threadStarts then
      (Event.acceptCall server_fd :: Event.dispatch new_socket port
        :: (accept_loop server_fd port more (new_socket :: live)).1,
        (accept_loop server_fd port more (new_socket :: live)).2)
    else
      ([Event.acceptCall server_fd, Event.terminate], Status.aborted)
  | Outcome.handlerSigpipe socket_fd :: more, live =>
    if socket_fd ∈ live then ([Event.sigpipe socket_fd], Status.killed)
    else accept_loop server_fd port more live

/-- The function `start_server` of lines 50-98: the events of the process and
its status once the given outcomes are consumed. -/
def start_server (port : Int) (r : SetupResults) (outcomes : List Outcome) :
    List Event × Status :=
  let server_fd := r.socket
  if server_fd = 0 then
    ([Event.socketCall, Event.perror "Socket failed", Event.exit EXIT_FAILURE],
      Status.exited EXIT_FAILURE)
  else if r.setsockopt ≠ 0 then
    ([Event.socketCall, Event.setsockoptCall server_fd, Event.perror "setsockopt",
      Event.exit EXIT_FAILURE], Status.exited EXIT_FAILURE)
  else if r.bind < 0 then
    ([Event.socketCall, Event.setsockoptCall server_fd, Event.bindCall server_fd port,
      Event.perror "Bind failed", Event.exit EXIT_FAILURE], Status.exited EXIT_FAILURE)
  else if r.listen < 0 then
    ([Event.socketCall, Event.setsockoptCall server_fd, Event.bindCall server_fd port,
      Event.listenCall server_fd 5, Event.perror "Listen failed", Event.exit EXIT_FAILURE],
      Status.exited EXIT_FAILURE)
  else
    ([Event.socketCall, Event.setsockoptCall server_fd, Event.bindCall server_fd port,
      Event.listenCall server_fd 5, Event.banner port]
        ++ (accept_loop server_fd port outcomes []).1,
      (accept_loop server_fd port outcomes []).2)

/-- The sockets of the successful `accept` calls among the outcomes, in order:
the non-negative results. -/
def acceptedSockets : List Outcome → List Int
  | [] => []
  | Outcome.acceptReturns new_socket _ :: more =>
    if 0 ≤ new_socket then new_socket :: acceptedSockets more else acceptedSockets more
  | Outcome.handlerSigpipe _ :: more => acceptedSockets more

/-- The handlers dispatched in a trace, in order: the arguments of each
`std::thread(handle_connection, new_socket, port)`. -/
def dispatched : List Event → List (Int × Int)
  | [] => []
  | Event.dispatch socket_fd port :: more => (socket_fd, port) :: dispatched more
  | _ :: more => dispatched more

/-! ## Reading an HTTP response -/

/-- The four characters of a blank line: carriage return, line feed, twice. -/
def blankLine : List Char := ['\r', '\n', '\r', '\n']

/-- Splits a message at its first blank line: what stands before it and what
follows it. -/
def splitBlankLine : List Char → Option (List Char × List Char)
  | [] => none
  | c :: rest =>
    if blankLine.isPrefixOf (c :: rest) then some ([], (c :: rest).drop 4)
    else (splitBlankLine rest).map (fun hb => (c :: hb.1, hb.2))

/-- Splits a header block into its lines, which carriage return and line feed
separate. -/
def splitLines : List Char → List (List Char)
  | [] => [[]]
  | [c] => [[c]]
  | c :: d :: rest =>
    if c = '\r' ∧ d = '\n' then [] :: splitLines rest
    else
      match splitLines (d :: rest) with
      | [] => [[c]]
      | l :: ls => (c :: l) :: ls

/-- Whether a character is one of the decimal digits `0` to `9`. -/
def isDigit (c : Char) : Bool := decide ('0'.toNat ≤ c.toNat ∧ c.toNat ≤ '9'.toNat)

/-- The number a run of decimal digits writes; `none` for an empty run or a run
with another character. -/
def readDecimal (cs : List Char) : Option Nat :=
  if cs = [] then none
  else cs.foldlM (fun n c => if isDigit c then some (n * 10 + (c.toNat - '0'.toNat)) else none) 0

/-- The value of a header: the text after `name`, a colon and a space on the first
line that starts so. -/
def headerValue (name : List Char) : List (List Char) → Option (List Char)
  | [] => none
  | l :: ls =>
    if (name ++ [':', ' ']).isPrefixOf l then some (l.drop (name.length + 2))
    else headerValue name ls

/-! ## Reading JSON (RFC 8259) -/

/-- The tokens of a JSON text.  A string token holds the characters between
its quotes as written, a number token the characters of the number. -/
inductive Token where
  | lbrace | rbrace | lbracket | rbracket | colon | comma
  | str (text : List Char)
  | num (text : List Char)
  | lit (word : List Char)
  deriving DecidableEq

/-- The states of the number grammar `[ minus ] int [ frac ] [ exp ]`. -/
inductive NumSt where
  | minus | zero | int | dot | frac | e | esign | exp
  deriving DecidableEq

/-- The states in which a number may end. -/
def NumSt.accepting : NumSt → Bool
  | NumSt.zero | NumSt.int | NumSt.frac | NumSt.exp => true
  | _ => false

/-- One character more of a number; `none` when the character does not
continue it. -/
def numStep (st : NumSt) (c : Char) : Option NumSt :=
  match st with
  | NumSt.minus =>
    if c = '0' then some NumSt.zero else if isDigit c then some NumSt.int else none
  | NumSt.zero =>
    if c = '.' then some NumSt.dot else if c = 'e' ∨ c = 'E' then some NumSt.e else none
  | NumSt.int =>
    if isDigit c then some NumSt.int else if c = '.' then some NumSt.dot
    else if c = 'e' ∨ c = 'E' then some NumSt.e else none
  | NumSt.dot => if isDigit c then some NumSt.frac else none
  | NumSt.frac =>
    if isDigit c then some NumSt.frac else if c = 'e' ∨ c = 'E' then some NumSt.e else none
  | NumSt.e =>
    if c = '+' ∨ c = '-' then some NumSt.esign else if isDigit c then some NumSt.exp else none
  | NumSt.esign => if isDigit c then some NumSt.exp else none
  | NumSt.exp => if isDigit c then some NumSt.exp else none

/-- Where the lexer stands.  The characters gathered for the token being read
are kept last character first. -/
inductive Mode where
  | idle
  | inStr (acc : List Char)
  | inEsc (acc : List Char)
  | inHex (acc : List Char) (more : Nat)
  | inNum (st : NumSt) (acc : List Char)
  | inLit (word : List Char) (more : List Char)
  deriving DecidableEq

/-- The state of the lexer: its mode and the tokens read so far, last token
first. -/
structure LexState where
  mode : Mode
  toks : List Token
  deriving DecidableEq

/-- Insignificant whitespace: space, horizontal tab, line feed, carriage return. -/
def isWs (c : Char) : Bool := c = ' ' ∨ c = '\t' ∨ c = '\n' ∨ c = '\r'

/-- A hexadecimal digit. -/
def isHex (c : Char) : Bool :=
  isDigit c ∨ ('a'.toNat ≤ c.toNat ∧ c.toNat ≤ 'f'.toNat) ∨ ('A'.toNat ≤ c.toNat ∧ c.toNat ≤ 'F'.toNat)

/-- The lexer between two tokens. -/
def idleStep (toks : List Token) (c : Char) : Option LexState :=
  if isWs c then some ⟨Mode.idle, toks⟩
  else if c = '\x7b' then some ⟨Mode.idle, Token.lbrace :: toks⟩
  else if c = '\x7d' then some ⟨Mode.idle, Token.rbrace :: toks⟩
  else if c = '[' then some ⟨Mode.idle, Token.lbracket :: toks⟩
  else if c = ']' then some ⟨Mode.idle, Token.rbracket :: toks⟩
  else if c = ':' then some ⟨Mode.idle, Token.colon :: toks⟩
  else if c = ',' then some ⟨Mode.idle, Token.comma :: toks⟩
  else if c = '"' then some ⟨Mode.inStr [], toks⟩
  else if c = '-' then some ⟨Mode.inNum NumSt.minus [c], toks⟩
  else if c = '0' then some ⟨Mode.inNum NumSt.zero [c], toks⟩
  else if isDigit c then some ⟨Mode.inNum NumSt.int [c], toks⟩
  else if c = 't' then some ⟨Mode.inLit ['t', 'r', 'u', 'e'] ['r', 'u', 'e'], toks⟩
  else if c = 'f' then some ⟨Mode.inLit ['f', 'a', 'l', 's', 'e'] ['a', 'l', 's', 'e'], toks⟩
  else if c = 'n' then some ⟨Mode.inLit ['n', 'u', 'l', 'l'] ['u', 'l', 'l'], toks⟩
  else none

/-- One character of a JSON text; `none` when no JSON text continues so. -/
def lexStep (s : LexState) (c : Char) : Option LexState :=
  match s.mode with
  | Mode.idle => idleStep s.toks c
  | Mode.inStr acc =>
    if c = '"' then some ⟨Mode.idle, Token.str acc.reverse :: s.toks⟩
    else if c = '\\' then some ⟨Mode.inEsc (c :: acc), s.toks⟩
    else if c.toNat < 32 then none
    else some ⟨Mode.inStr (c :: acc), s.toks⟩
  | Mode.inEsc acc =>
    if c = '"' ∨ c = '\\' ∨ c = '/' ∨ c = 'b' ∨ c = 'f' ∨ c = 'n' ∨ c = 'r' ∨ c = 't' then
      some ⟨Mode.inStr (c :: acc), s.toks⟩
    else if c = 'u' then some ⟨Mode.inHex (c :: acc) 4, s.toks⟩
    else none
  | Mode.inHex acc more =>
    if isHex c then
      if more ≤ 1 then some ⟨Mode.inStr (c :: acc), s.toks⟩
      else some ⟨Mode.inHex (c :: acc) (more - 1), s.toks⟩
    else none
  | Mode.inNum st acc =>
    match numStep st c with
    | some st2 => some ⟨Mode.inNum st2 (c :: acc), s.toks⟩
    | none => if st.accepting then idleStep (Token.num acc.reverse :: s.toks) c else none
  | Mode.inLit word more =>
    match more with
    | [] => none
    | [m] => if c = m then some ⟨Mode.idle, Token.lit word :: s.toks⟩ else none
    | m :: ms => if c = m then some ⟨Mode.inLit word ms, s.toks⟩ else none

/-- The end of the text: a number may end here, a string or a literal word may
not. -/
def lexFinish (s : LexState) : Option (List Token) :=
  match s.mode with
  | Mode.idle => some s.toks.reverse
  | Mode.inNum st acc =>
    if st.accepting then some (Token.num acc.reverse :: s.toks).reverse else none
  | _ => none

/-- The tokens of a text; `none` when the text is not made of JSON tokens and
whitespace. -/
def tokenize (cs : List Char) : Option (List Token) :=
  (cs.foldlM lexStep ⟨Mode.idle, []⟩).bind lexFinish

/-- A JSON value.  Strings and numbers keep their text; the members of an object
keep their order. -/
inductive Json where
  | lit (word : List Char)
  | num (text : List Char)
  | str (text : List Char)
  | arr (items : List Json)
  | obj (members : List (List Char × Json))

mutual
/-- A value at the head of the tokens, and the tokens after it. -/
def parseValue : Nat → List Token → Option (Json × List Token)
  | 0, _ => none
  | _ + 1, Token.str s :: ts => some (Json.str s, ts)
  | _ + 1, Token.num s :: ts => some (Json.num s, ts)
  | _ + 1, Token.lit w :: ts => some (Json.lit w, ts)
  | _ + 1, Token.lbrace :: Token.rbrace :: ts => some (Json.obj [], ts)
  | fuel + 1, Token.lbrace :: ts =>
    match parseMembers fuel ts with
    | some (ms, ts2) => some (Json.obj ms, ts2)
    | none => none
  | _ + 1, Token.lbracket :: Token.rbracket :: ts => some (Json.arr [], ts)
  | fuel + 1, Token.lbracket :: ts =>
    match parseItems fuel ts with
    | some (vs, ts2) => some (Json.arr vs, ts2)
    | none => none
  | _ + 1, _ => none
/-- The members of an object after its opening brace, up to and including the
closing brace. -/
def parseMembers : Nat → List Token → Option (List (List Char × Json) × List Token)
  | 0, _ => none
  | fuel + 1, Token.str k :: Token.colon :: ts =>
    match parseValue fuel ts with
    | some (v, Token.comma :: ts2) =>
      match parseMembers fuel ts2 with
      | some (ms, ts3) => some ((k, v) :: ms, ts3)
      | none => none
    | some (v, Token.rbrace :: ts2) => some ([(k, v)], ts2)
    | _ => none
  | _ + 1, _ => none
/-- The items of an array after its opening bracket, up to and including the
closing bracket. -/
def parseItems : Nat → List Token → Option (List Json × List Token)
  | 0, _ => none
  | fuel + 1, ts =>
    match parseValue fuel ts with
    | some (v, Token.comma :: ts2) =>
      match parseItems fuel ts2 with
      | some (vs, ts3) => some (v :: vs, ts3)
      | none => none
    | some (v, Token.rbracket :: ts2) => some ([v], ts2)
    | _ => none
end

/-- The JSON value a text writes; `none` when the text is not well-formed JSON.
Every step of the parser consumes a token, so the number of tokens bounds the
steps. -/
def parseJson (cs : List Char) : Option Json :=
  match tokenize cs with
  | none => none
  | some ts =>
    match parseValue (ts.length + 1) ts with
    | some (v, []) => some v
    | _ => none

/-- The value of the first member named `key` of an object. -/
def Json.member (key : List Char) : Json → Option Json
  | Json.obj ms => (ms.find? (fun m => m.1 = key)).map (fun m => m.2)
  | _ => none

/-- The response body in the words of the specification: the template
`{"status":"success","engine":"<engine-id>","latency_ms":<int>,"exit_code":0,"stdout":"<text>"}`. -/
def specBody (engineId : String) (latency : Int) (text : String) : String :=
  "\x7b\"status\":\"success\",\"engine\":\"" ++ engineId ++ "\",\"latency_ms\":"
    ++ to_string latency ++ ",\"exit_code\":0,\"stdout\":\"" ++ text ++ "\"\x7d"

/-- The condition under which a text can stand unescaped between double quotes:
no double quote, no control character, and the letter n after every backslash. -/
def quotable : List Char → Bool
  | [] => true
  | c :: rest =>
    if c = '"' ∨ c.toNat < 32 then false
    else if c = '\\' then
      match rest with
      | d :: rest2 => d = 'n' && quotable rest2
      | [] => false
    else quotable rest

/-- The value of a run of digits read from the left, starting from `n`. -/
def digitsValue (n : Nat) (cs : List Char) : Nat :=
  cs.foldl (fun n c => n * 10 + (c.toNat - '0'.toNat)) n

/-- The shape of a decimal numeral of `n`: digits only, no leading zero unless
the numeral is `0`, and the value `n`. -/
structure IsNumeral (ds : List Char) (n : Nat) : Prop where
  digits : ∀ c ∈ ds, isDigit c = true
  nonempty : ds ≠ []
  leading : n ≠ 0 → ∀ c ∈ ds.head?, c ≠ '0'
  zero : n = 0 → ds = ['0']
  value : digitsValue 0 ds = n

/-- The text of the body before the latency. -/
def bodyHead (port : Int) : List Char :=
  "\x7b\"status\": \"success\",\"engine\": \"".toList ++ (engine port).toList
    ++ "\",\"latency_ms\": ".toList

/-- The text of the body after the latency. -/
def bodyTail (port : Int) : List Char :=
  ",\"exit_code\": 0,\"stdout\": \"".toList ++ (mock_output port).toList ++ "\"\x7d".toList

/-- The tokens of the body before the latency, last token first. -/
def headTokens (port : Int) : List Token :=
  [Token.colon, Token.str "latency_ms".toList, Token.comma, Token.str (engine port).toList,
    Token.colon, Token.str "engine".toList, Token.comma, Token.str "success".toList,
    Token.colon, Token.str "status".toList, Token.lbrace]

/-- The tokens of the body after the latency, last token first. -/
def tailTokens (port : Int) : List Token :=
  [Token.rbrace, Token.str (mock_output port).toList, Token.colon, Token.str "stdout".toList,
    Token.comma, Token.num "0".toList, Token.colon, Token.str "exit_code".toList,
    Token.comma]

/-- The tokens of the response body, in order. -/
def bodyTokens (port latency : Int) : List Token :=
  [Token.lbrace, Token.str "status".toList, Token.colon, Token.str "success".toList,
    Token.comma, Token.str "engine".toList, Token.colon, Token.str (engine port).toList,
    Token.comma, Token.str "latency_ms".toList, Token.colon,
    Token.num (to_string latency).toList,
    Token.comma, Token.str "exit_code".toList, Token.colon, Token.num "0".toList,
    Token.comma, Token.str "stdout".toList, Token.colon, Token.str (mock_output port).toList,
    Token.rbrace]

/-- The object of the response body: five members, in order. -/
def bodyJson (port latency : Int) : Json :=
  Json.obj
    [("status".toList, Json.str "success".toList),
      ("engine".toList, Json.str (engine port).toList),
      ("latency_ms".toList, Json.num (to_string latency).toList),
      ("exit_code".toList, Json.num "0".toList),
      ("stdout".toList, Json.str (mock_output port).toList)]

/-! ## Lemmas: the decoder -/

theorem ldiff_255 (m : Nat) : Nat.ldiff 255 m = 255 - m % 256 := by
  apply Nat.eq_of_testBit_eq
  intro i
  have h : 255 - m % 256 = 2 ^ 8 - (m % 2 ^ 8 + 1) := by omega
  have h2 : (255 : Nat) = 2 ^ 8 - 1 := by norm_num
  rw [Nat.testBit_ldiff, h, Nat.testBit_two_pow_sub_succ (Nat.mod_lt _ (by norm_num)),
    Nat.testBit_mod_two_pow, h2, Nat.testBit_two_pow_sub_one]
  cases decide (i < 8) <;> simp

/-- The mask `& 0xFF` on a two's-complement integer is the remainder modulo 256. -/
theorem land_255 (x : Int) : Int.land x 255 = x % 256 := by
  cases x with
  | ofNat n =>
    show ((n &&& 255 : Nat) : Int) = _
    have h := Nat.and_pow_two_sub_one_eq_mod n 8
    norm_num at h
    rw [h]; rfl
  | negSucc m =>
    show ((Nat.ldiff 255 m : Nat) : Int) = _
    rw [ldiff_255, Int.negSucc_eq]
    omega

/-- The byte pushed at line 37, as a quotient and a remainder. -/
theorem emit_eq (v : Int) (k : Nat) :
    toByte (Int.land (shr v k) 0xFF) = Fin.ofNat ((v / 2 ^ k) % 256).toNat := by
  unfold toByte shr
  rw [land_255, Int.shiftRight_eq_div_pow]
  congr 2
  simp [Int.emod_emod_of_dvd]

theorem emit_congr (v w : Int) (k : Nat) (hk : k ≤ 5)
    (h : v % 4294967296 = w % 4294967296) :
    (v / 2 ^ k) % 256 = (w / 2 ^ k) % 256 := by
  have : k = 0 ∨ k = 1 ∨ k = 2 ∨ k = 3 ∨ k = 4 ∨ k = 5 := by omega
  rcases this with rfl | rfl | rfl | rfl | rfl | rfl <;> norm_num <;> omega

theorem wrap_step (v w t : Int) (h : v % 4294967296 = w % 4294967296) :
    wrap32 (wrap32 (shl v 6) + t) % 4294967296 = (shl w 6 + t) % 4294967296 := by
  unfold wrap32 shl
  norm_num
  omega

theorem decodeLoop_eq_decodeLoopZ (cs : List Byte) :
    ∀ (val val2 valb : Int) (out : List Byte), val % 4294967296 = val2 % 4294967296 →
      -8 ≤ valb → valb < 0 → decodeLoop cs val valb out = decodeLoopZ cs val2 valb out := by
  induction cs with
  | nil => intro val val2 valb out _ _ _; rfl
  | cons c rest ih =>
    intro val val2 valb out h h1 h2
    unfold decodeLoop decodeLoopZ
    by_cases hc : T_at c = -1
    · simp [hc]
    · simp only [hc, if_false]
      have hw := wrap_step val val2 (T_at c) h
      by_cases hb : 0 ≤ valb + 6
      · simp only [hb, if_true]
        rw [emit_eq, emit_eq, emit_congr _ _ _ (by omega) hw]
        exact ih _ _ _ _ hw (by omega) (by omega)
      · simp only [hb, if_false]
        exact ih _ _ _ _ hw (by omega) (by omega)

/-- Every byte is pushed with a shift of 0, 2 or 4 when the loop starts from
`valb = -8`: the shift amounts seen from a state with an even `valb`. -/
theorem shifts_even (cs : List Byte) :
    ∀ (valb : Int), -8 ≤ valb → valb < 0 → valb % 2 = 0 →
      ∀ k ∈ emitShifts cs valb, k = 0 ∨ k = 2 ∨ k = 4 := by
  induction cs with
  | nil => intro valb _ _ _ k hk; simp [emitShifts] at hk
  | cons c rest ih =>
    intro valb h1 h2 h3 k hk
    unfold emitShifts at hk
    by_cases hc : T_at c = -1
    · simp [hc] at hk
    · simp only [hc, if_false] at hk
      by_cases hb : 0 ≤ valb + 6
      · simp only [hb, if_true, List.mem_cons] at hk
        rcases hk with hk | hk
        · omega
        · exact ih _ (by omega) (by omega) (by omega) k hk
      · simp only [hb, if_false] at hk
        exact ih _ (by omega) (by omega) (by omega) k hk

theorem low12 (v w : Int) (k : Nat) (hk : k = 0 ∨ k = 2 ∨ k = 4) (h : v % 4096 = w % 4096) :
    (v / 2 ^ k) % 256 = (w / 2 ^ k) % 256 := by
  rcases hk with rfl | rfl | rfl <;> norm_num <;> omega

set_option maxRecDepth 100000 in
theorem T_at_alph : ∀ i : Fin 64, T_at (alph i.val) = (i.val : Int) := by decide

theorem T_at_alph_nat (i : Nat) (h : i < 64) : T_at (alph i) = (i : Int) :=
  T_at_alph ⟨i, h⟩

theorem T_at_padByte : T_at padByte = -1 := by decide

theorem emit_val (v : Int) (k : Nat) (a : Byte) (h : (v / 2 ^ k) % 256 = (a.val : Int)) :
    toByte (Int.land (shr v k) 0xFF) = a := by
  rw [emit_eq, h]
  apply Fin.ext
  simp [Fin.ofNat]

theorem decodeLoop_emit (i : Nat) (h : i < 64) (rest : List Byte) (val valb : Int)
    (out : List Byte) (k : Nat) (hk : valb + 6 = (k : Int)) :
    decodeLoop (alph i :: rest) val valb out =
      decodeLoop rest (wrap32 (wrap32 (shl val 6) + i)) ((k : Int) - 8)
        (out ++ [toByte (Int.land (shr (wrap32 (wrap32 (shl val 6) + i)) k) 0xFF)]) := by
  rw [decodeLoop, T_at_alph_nat i h]
  have h1 : ¬ ((i : Int) = -1) := by omega
  have h2 : (0 : Int) ≤ valb + 6 := by omega
  simp only [h1, h2, if_false, if_true]
  rw [hk, Int.toNat_ofNat]

theorem decodeLoop_skip (i : Nat) (h : i < 64) (rest : List Byte) (val valb : Int)
    (out : List Byte) (hk : valb + 6 < 0) :
    decodeLoop (alph i :: rest) val valb out =
      decodeLoop rest (wrap32 (wrap32 (shl val 6) + i)) (valb + 6) out := by
  rw [decodeLoop, T_at_alph_nat i h]
  have h1 : ¬ ((i : Int) = -1) := by omega
  have h2 : ¬ (0 : Int) ≤ valb + 6 := by omega
  simp only [h1, h2, if_false]

theorem decodeLoop_pad (rest : List Byte) (val valb : Int) (out : List Byte) :
    decodeLoop (padByte :: rest) val valb out = out := by
  rw [decodeLoop, T_at_padByte]; simp

theorem decodeLoop_encode (bs : List Byte) :
    ∀ (val : Int) (out : List Byte), decodeLoop (base64_encode bs) val (-8) out = out ++ bs := by
  induction bs using base64_encode.induct with
  | case1 => intro val out; simp [base64_encode, decodeLoop]
  | case2 a =>
    intro val out
    have ha := a.isLt
    rw [base64_encode, decodeLoop_skip _ (by omega) _ _ _ _ (by norm_num),
      decodeLoop_emit _ (by omega) _ _ _ _ 4 (by norm_num), decodeLoop_pad,
      emit_val _ 4 a (by unfold wrap32 shl; push_cast; omega)]
  | case3 a b =>
    intro val out
    have ha := a.isLt
    have hb := b.isLt
    rw [base64_encode, decodeLoop_skip _ (by omega) _ _ _ _ (by norm_num),
      decodeLoop_emit _ (by omega) _ _ _ _ 4 (by norm_num),
      decodeLoop_emit _ (by omega) _ _ _ _ 2 (by norm_num), decodeLoop_pad,
      emit_val _ 4 a (by unfold wrap32 shl; push_cast; omega),
      emit_val _ 2 b (by unfold wrap32 shl; push_cast; omega)]
    simp
  | case4 a b c rest ih =>
    intro val out
    have ha := a.isLt
    have hb := b.isLt
    have hc := c.isLt
    rw [base64_encode, decodeLoop_skip _ (by omega) _ _ _ _ (by norm_num),
      decodeLoop_emit _ (by omega) _ _ _ _ 4 (by norm_num),
      decodeLoop_emit _ (by omega) _ _ _ _ 2 (by norm_num),
      decodeLoop_emit _ (by omega) _ _ _ _ 0 (by norm_num),
      emit_val _ 4 a (by unfold wrap32 shl; push_cast; omega),
      emit_val _ 2 b (by unfold wrap32 shl; push_cast; omega),
      emit_val _ 0 c (by unfold wrap32 shl; push_cast; omega)]
    have e : ((0 : Nat) : Int) - 8 = -8 := by norm_num
    rw [e, ih]
    simp

theorem decodeLoop_takeWhile (cs : List Byte) :
    ∀ (val valb : Int) (out : List Byte),
      decodeLoop cs val valb out = decodeLoop (cs.takeWhile inAlphabet) val valb out := by
  induction cs with
  | nil => intro val valb out; rfl
  | cons c rest ih =>
    intro val valb out
    by_cases hc : T_at c = -1
    · have hf : inAlphabet c = false := by simp [inAlphabet, hc]
      rw [List.takeWhile_cons, hf]
      simp [decodeLoop, hc]
    · have ht : inAlphabet c = true := by simp [inAlphabet, hc]
      rw [List.takeWhile_cons, ht]
      simp only [if_true, decodeLoop, hc, if_false]
      split
      · exact ih _ _ _
      · exact ih _ _ _

theorem decodeLoop_length (cs : List Byte) (hcs : ∀ c ∈ cs, inAlphabet c = true) :
    ∀ (val valb : Int) (out : List Byte), -8 ≤ valb → valb < 0 →
      ((decodeLoop cs val valb out).length : Int) =
        out.length + (6 * cs.length + valb + 8) / 8 := by
  induction cs with
  | nil => intro val valb out h1 h2; simp [decodeLoop]; omega
  | cons c rest ih =>
    intro val valb out h1 h2
    have hc : ¬ (T_at c = -1) := by
      have := hcs c (List.mem_cons_self _ _)
      simpa [inAlphabet] using this
    have hrest : ∀ x ∈ rest, inAlphabet x = true :=
      fun x hx => hcs x (List.mem_cons_of_mem _ hx)
    simp only [decodeLoop, hc, if_false]
    split
    · rw [ih hrest _ _ _ (by omega) (by omega)]
      simp only [List.length_append, List.length_cons, List.length_nil]
      push_cast
      omega
    · rw [ih hrest _ _ _ (by omega) (by omega)]
      simp only [List.length_cons]
      push_cast
      omega

theorem base64_decode_length (s : List Byte) :
    (base64_decode s).length = 6 * (s.takeWhile inAlphabet).length / 8 := by
  have h := decodeLoop_length (s.takeWhile inAlphabet)
    (fun c hc => (List.mem_takeWhile_imp hc)) 0 (-8) [] (by norm_num) (by norm_num)
  unfold base64_decode
  rw [decodeLoop_takeWhile]
  simp only [List.length_nil] at h
  omega

set_option maxRecDepth 100000 in
theorem inAlphabet_iff : ∀ c : Byte, inAlphabet c = true ↔ c ∈ bytesOf b64_chars := by
  decide

/-! ## Lemmas: decimal numerals -/

/-- The ten digit characters: each is a digit, has its own value, and only the
first is the character `0`. -/
theorem digitChar_facts : ∀ m : Fin 10,
    isDigit (Nat.digitChar m.val) = true ∧
    (Nat.digitChar m.val).toNat - '0'.toNat = m.val ∧
    (m.val ≠ 0 → Nat.digitChar m.val ≠ '0') := by
  decide

theorem isDigit_digitChar (m : Nat) (h : m < 10) : isDigit (Nat.digitChar m) = true :=
  (digitChar_facts ⟨m, h⟩).1

theorem digitChar_value (m : Nat) (h : m < 10) : (Nat.digitChar m).toNat - '0'.toNat = m :=
  (digitChar_facts ⟨m, h⟩).2.1

theorem digitChar_ne_zero (m : Nat) (h : m < 10) (h0 : m ≠ 0) : Nat.digitChar m ≠ '0' :=
  (digitChar_facts ⟨m, h⟩).2.2 h0

/-- One digit is the numeral of its value. -/
theorem numeral_single (r : Nat) (hr : r < 10) : IsNumeral [Nat.digitChar r] r where
  digits := by
    intro c hc
    rw [List.mem_singleton] at hc
    rw [hc]; exact isDigit_digitChar r hr
  nonempty := by simp
  leading := by
    intro h0 c hc
    simp only [List.head?_cons, Option.mem_def, Option.some.injEq] at hc
    rw [← hc]; exact digitChar_ne_zero r hr h0
  zero := by intro h0; rw [h0]; rfl
  value := by
    have hv := digitChar_value r hr
    simpa [digitsValue] using hv

/-- A digit written after the numeral of `q > 0` gives the numeral of
`q * 10 + r`. -/
theorem numeral_snoc (ds : List Char) (q r : Nat) (hnum : IsNumeral ds q) (hq : q ≠ 0)
    (hr : r < 10) : IsNumeral (ds ++ [Nat.digitChar r]) (q * 10 + r) where
  digits := by
    intro c hc
    rw [List.mem_append, List.mem_singleton] at hc
    rcases hc with hc | hc
    · exact hnum.digits c hc
    · rw [hc]; exact isDigit_digitChar r hr
  nonempty := by simp
  leading := by
    intro _ c hc
    have hne := hnum.nonempty
    cases ds with
    | nil => exact absurd rfl hne
    | cons d ds2 =>
      simp only [List.cons_append, List.head?_cons, Option.mem_def,
        Option.some.injEq] at hc
      rw [← hc]
      exact hnum.leading hq d (by simp)
  zero := by intro h0; omega
  value := by
    have hv := hnum.value
    unfold digitsValue at hv ⊢
    rw [List.foldl_append, hv]
    simp only [List.foldl_cons, List.foldl_nil]
    rw [digitChar_value r hr]

/-- With fuel above `n`, the digit loop of `Nat.repr` puts the numeral of `n` in
front of its accumulator. -/
theorem toDigitsCore_spec (fuel : Nat) :
    ∀ (n : Nat) (acc : List Char), n < fuel →
      ∃ ds, Nat.toDigitsCore 10 fuel n acc = ds ++ acc ∧ IsNumeral ds n := by
  induction fuel with
  | zero => intro n acc h; omega
  | succ fuel ih =>
    intro n acc h
    have hr : n % 10 < 10 := Nat.mod_lt _ (by norm_num)
    rw [Nat.toDigitsCore]
    by_cases hq : n / 10 = 0
    · have hn : n % 10 = n := by omega
      refine ⟨[Nat.digitChar (n % 10)], by simp [hq], ?_⟩
      have hs := numeral_single (n % 10) hr
      rwa [hn] at hs ⊢
    · have hlt : n / 10 < fuel := by omega
      obtain ⟨pre, hpre, hnum⟩ := ih _ (Nat.digitChar (n % 10) :: acc) hlt
      have hs := numeral_snoc pre (n / 10) (n % 10) hnum hq hr
      have hn : n / 10 * 10 + n % 10 = n := by omega
      rw [hn] at hs
      exact ⟨pre ++ [Nat.digitChar (n % 10)], by simp [hq, hpre], hs⟩

theorem repr_isNumeral (n : Nat) : IsNumeral (Nat.repr n).toList n := by
  obtain ⟨ds, hds, hnum⟩ := toDigitsCore_spec (n + 1) n [] (by omega)
  have : (Nat.repr n).toList = ds := by
    simp [Nat.repr, Nat.toDigits, hds, List.asString]
  rw [this]; exact hnum

theorem to_string_neg (x : Int) (h : x < 0) :
    (to_string x).toList = '-' :: (Nat.repr x.natAbs).toList := by
  simp [to_string, h]

theorem to_string_nonneg (x : Int) (h : 0 ≤ x) :
    (to_string x).toList = (Nat.repr x.natAbs).toList := by
  have : ¬ x < 0 := by omega
  simp [to_string, this]

theorem readDecimal_numeral (ds : List Char) (n : Nat) (h : IsNumeral ds n) :
    readDecimal ds = some n := by
  have key : ∀ (cs : List Char) (m : Nat), (∀ c ∈ cs, isDigit c = true) →
      cs.foldlM (fun n c => if isDigit c then some (n * 10 + (c.toNat - '0'.toNat)) else none) m
        = some (digitsValue m cs) := by
    intro cs
    induction cs with
    | nil => intro m _; rfl
    | cons c cs ih =>
      intro m hd
      have hc := hd c (List.mem_cons_self _ _)
      simp only [List.foldlM_cons, hc, if_true, Option.bind_eq_bind, Option.some_bind]
      rw [ih _ (fun x hx => hd x (List.mem_cons_of_mem _ hx))]
      rfl
  unfold readDecimal
  rw [if_neg h.nonempty, key ds 0 h.digits, h.value]

/-! ## Lemmas: the HTTP response -/

theorem splitBlankLine_skip (p rest : List Char) (h : ∀ c ∈ p, c ≠ '\r') :
    splitBlankLine (p ++ rest) = (splitBlankLine rest).map (fun hb => (p ++ hb.1, hb.2)) := by
  induction p with
  | nil => simp
  | cons c p ih =>
    have hc : c ≠ '\r' := h c (List.mem_cons_self _ _)
    have hpre : blankLine.isPrefixOf (c :: (p ++ rest)) = false := by
      simp [blankLine, List.isPrefixOf, Ne.symm hc]
    rw [List.cons_append, splitBlankLine, hpre, ih (fun x hx => h x (List.mem_cons_of_mem _ hx))]
    cases splitBlankLine rest <;> simp

theorem splitBlankLine_crlf (c : Char) (rest : List Char) (hc : c ≠ '\r') :
    splitBlankLine ('\r' :: '\n' :: c :: rest) =
      (splitBlankLine (c :: rest)).map (fun hb => ('\r' :: '\n' :: hb.1, hb.2)) := by
  have h1 : blankLine.isPrefixOf ('\r' :: '\n' :: c :: rest) = false := by
    simp [blankLine, List.isPrefixOf, Ne.symm hc]
  have h2 : blankLine.isPrefixOf ('\n' :: c :: rest) = false := by
    simp [blankLine, List.isPrefixOf]
  rw [splitBlankLine, h1, splitBlankLine, h2]
  cases splitBlankLine (c :: rest) <;> simp

theorem splitBlankLine_line (p q rest : List Char) (hp : ∀ c ∈ p, c ≠ '\r')
    (hq : ∀ c ∈ q.head?, c ≠ '\r') (hne : q ≠ []) :
    splitBlankLine (p ++ '\r' :: '\n' :: (q ++ rest)) =
      (splitBlankLine (q ++ rest)).map (fun hb => (p ++ '\r' :: '\n' :: hb.1, hb.2)) := by
  cases q with
  | nil => exact absurd rfl hne
  | cons c q2 =>
    have hc : c ≠ '\r' := hq c (by simp)
    rw [splitBlankLine_skip _ _ hp, List.cons_append, splitBlankLine_crlf _ _ hc]
    cases splitBlankLine (c :: (q2 ++ rest)) <;> simp

theorem splitBlankLine_here (body : List Char) :
    splitBlankLine ('\r' :: '\n' :: '\r' :: '\n' :: body) = some ([], body) := by
  simp [splitBlankLine, blankLine, List.isPrefixOf]

theorem splitLines_single (p : List Char) (h : ∀ c ∈ p, c ≠ '\r') : splitLines p = [p] := by
  induction p with
  | nil => rfl
  | cons c p ih =>
    have hc : c ≠ '\r' := h c (List.mem_cons_self _ _)
    have ih2 := ih (fun x hx => h x (List.mem_cons_of_mem _ hx))
    cases p with
    | nil => rfl
    | cons d p2 =>
      rw [splitLines]
      simp only [hc, false_and, if_false, ih2]

theorem splitLines_line (p rest : List Char) (h : ∀ c ∈ p, c ≠ '\r') :
    splitLines (p ++ '\r' :: '\n' :: rest) = p :: splitLines rest := by
  induction p with
  | nil => simp [splitLines]
  | cons c p ih =>
    have hc : c ≠ '\r' := h c (List.mem_cons_self _ _)
    have ih2 := ih (fun x hx => h x (List.mem_cons_of_mem _ hx))
    cases p with
    | nil =>
      simp only [List.nil_append] at ih2
      simp only [List.cons_append, List.nil_append]
      rw [splitLines]
      simp only [hc, false_and, if_false, ih2]
    | cons d p2 =>
      simp only [List.cons_append] at ih2 ⊢
      rw [splitLines]
      simp only [hc, false_and, if_false, ih2]

theorem isDigit_ne_cr (c : Char) (h : isDigit c = true) : c ≠ '\r' := by
  intro hc; rw [hc] at h; revert h; decide

theorem isDigit_ascii (c : Char) (h : isDigit c = true) : c.toNat < 128 := by
  simp [isDigit] at h
  have : '9'.toNat = 57 := by decide
  omega

theorem utf8_go_ascii (cs : List Char) (h : ∀ c ∈ cs, c.toNat < 128) :
    String.utf8ByteSize.go cs = cs.length := by
  induction cs with
  | nil => rfl
  | cons c cs ih =>
    have hc : c.toNat < 128 := h c (List.mem_cons_self _ _)
    rw [String.utf8ByteSize.go, ih (fun x hx => h x (List.mem_cons_of_mem _ hx))]
    have : c.utf8Size = 1 := by
      unfold Char.utf8Size
      have : c.val ≤ 127 := by
        show c.val.toNat ≤ 127
        have : c.toNat = c.val.toNat := rfl
        omega
      simp [this]
    rw [this]; rfl

theorem utf8ByteSize_ascii (s : String) (h : ∀ c ∈ s.toList, c.toNat < 128) :
    s.utf8ByteSize = s.toList.length := by
  cases s with
  | mk cs => exact utf8_go_ascii cs h

theorem http_response_toList (port latency : Int) :
    (http_response port latency).toList =
      "HTTP/1.1 200 OK".toList ++ '\r' :: '\n' ::
      ("Content-Type: application/json".toList ++ '\r' :: '\n' ::
      ("Access-Control-Allow-Origin: *".toList ++ '\r' :: '\n' ::
      (("Content-Length: ".toList ++
          (to_string (response_body port latency).utf8ByteSize).toList) ++ '\r' :: '\n' ::
      ("Connection: close".toList ++ '\r' :: '\n' :: '\r' :: '\n' ::
        (response_body port latency).toList)))) := by
  simp [http_response, String.toList]

theorem noCR_of_decide (l : List Char) (h : l.all (fun c => decide (c ≠ '\r')) = true) :
    ∀ c ∈ l, c ≠ '\r' := by
  intro c hc
  have := List.all_eq_true.mp h c hc
  simpa using this

theorem to_string_nat_numeral (n : Nat) : IsNumeral (to_string (n : Int)).toList n := by
  rw [to_string_nonneg _ (by omega)]
  exact repr_isNumeral n

theorem response_body_toList (port latency : Int) :
    (response_body port latency).toList =
      bodyHead port ++ ((to_string latency).toList ++ bodyTail port) := by
  simp only [response_body, String.toList, String.data_append, bodyHead, bodyTail,
    List.append_assoc]
  rfl

theorem to_string_ascii (x : Int) : ∀ c ∈ (to_string x).toList, c.toNat < 128 := by
  intro c hc
  by_cases h : x < 0
  · rw [to_string_neg x h, List.mem_cons] at hc
    rcases hc with hc | hc
    · rw [hc]; decide
    · exact isDigit_ascii c ((repr_isNumeral _).digits c hc)
  · rw [to_string_nonneg x (by omega)] at hc
    exact isDigit_ascii c ((repr_isNumeral _).digits c hc)

theorem ascii_of_decide (l : List Char) (h : l.all (fun c => decide (c.toNat < 128)) = true) :
    ∀ c ∈ l, c.toNat < 128 := by
  intro c hc
  have := List.all_eq_true.mp h c hc
  simpa using this

theorem bodyHead_ascii (port : Int) : ∀ c ∈ bodyHead port, c.toNat < 128 := by
  apply ascii_of_decide
  unfold bodyHead engine
  split <;> decide

theorem bodyTail_ascii (port : Int) : ∀ c ∈ bodyTail port, c.toNat < 128 := by
  apply ascii_of_decide
  unfold bodyTail mock_output
  split <;> decide

theorem response_body_ascii (port latency : Int) :
    ∀ c ∈ (response_body port latency).toList, c.toNat < 128 := by
  intro c hc
  rw [response_body_toList, List.mem_append, List.mem_append] at hc
  rcases hc with hc | hc | hc
  · exact bodyHead_ascii port c hc
  · exact to_string_ascii latency c hc
  · exact bodyTail_ascii port c hc

theorem content_length_line_noCR (n : Nat) :
    ∀ c ∈ "Content-Length: ".toList ++ (to_string (n : Int)).toList, c ≠ '\r' := by
  intro c hc
  rw [List.mem_append] at hc
  rcases hc with hc | hc
  · exact noCR_of_decide _ (by decide) c hc
  · exact isDigit_ne_cr c ((to_string_nat_numeral n).digits c hc)

/-! ## Lemmas: the tokens of the response body -/

set_option maxRecDepth 100000 in
theorem lex_bodyHead (port : Int) :
    (bodyHead port).foldlM lexStep ⟨Mode.idle, []⟩ = some ⟨Mode.idle, headTokens port⟩ := by
  unfold bodyHead headTokens engine
  split
  · rfl
  · rfl

set_option maxRecDepth 100000 in
theorem lex_bodyTail (port : Int) (st : NumSt) (hst : st = NumSt.zero ∨ st = NumSt.int)
    (acc : List Char) (toks : List Token) :
    (bodyTail port).foldlM lexStep ⟨Mode.inNum st acc, toks⟩
      = some ⟨Mode.idle, tailTokens port ++ Token.num acc.reverse :: toks⟩ := by
  unfold bodyTail tailTokens mock_output
  rcases hst with rfl | rfl
  · split
    · rfl
    · rfl
  · split
    · rfl
    · rfl

theorem ne_of_isDigit (d c : Char) (hd : isDigit d = true) (hc : isDigit c = false) : d ≠ c := by
  intro h; rw [h, hc] at hd; exact absurd hd (by decide)

theorem idleStep_digit (toks : List Token) (d : Char) (hd : isDigit d = true) (h0 : d ≠ '0') :
    idleStep toks d = some ⟨Mode.inNum NumSt.int [d], toks⟩ := by
  have hws : isWs d = false := by
    have h1 := ne_of_isDigit d ' ' hd (by decide)
    have h2 := ne_of_isDigit d '\t' hd (by decide)
    have h3 := ne_of_isDigit d '\n' hd (by decide)
    have h4 := ne_of_isDigit d '\r' hd (by decide)
    simp [isWs, h1, h2, h3, h4]
  unfold idleStep
  rw [hws]
  simp only [Bool.false_eq_true, if_false, ne_of_isDigit d '\x7b' hd (by decide),
    ne_of_isDigit d '\x7d' hd (by decide), ne_of_isDigit d '[' hd (by decide),
    ne_of_isDigit d ']' hd (by decide), ne_of_isDigit d ':' hd (by decide),
    ne_of_isDigit d ',' hd (by decide), ne_of_isDigit d '"' hd (by decide),
    ne_of_isDigit d '-' hd (by decide), h0, hd, if_true]

theorem lex_digits (ds : List Char) (hds : ∀ c ∈ ds, isDigit c = true) :
    ∀ (acc : List Char) (toks : List Token),
      ds.foldlM lexStep ⟨Mode.inNum NumSt.int acc, toks⟩
        = some ⟨Mode.inNum NumSt.int (ds.reverse ++ acc), toks⟩ := by
  induction ds with
  | nil => intro acc toks; rfl
  | cons d ds ih =>
    intro acc toks
    have hd := hds d (List.mem_cons_self _ _)
    have hstep : lexStep ⟨Mode.inNum NumSt.int acc, toks⟩ d
        = some ⟨Mode.inNum NumSt.int (d :: acc), toks⟩ := by
      simp [lexStep, numStep, hd]
    rw [List.foldlM_cons, hstep]
    simp only [Option.bind_eq_bind, Option.some_bind]
    rw [ih (fun x hx => hds x (List.mem_cons_of_mem _ hx))]
    simp

theorem lex_numeral (ds : List Char) (n : Nat) (h : IsNumeral ds n) (toks : List Token) :
    ∃ st, (st = NumSt.zero ∨ st = NumSt.int) ∧
      ds.foldlM lexStep ⟨Mode.idle, toks⟩ = some ⟨Mode.inNum st ds.reverse, toks⟩ := by
  by_cases hn : n = 0
  · rw [h.zero hn]
    exact ⟨NumSt.zero, Or.inl rfl, rfl⟩
  · have hne := h.nonempty
    cases ds with
    | nil => exact absurd rfl hne
    | cons d ds =>
      have hd := h.digits d (List.mem_cons_self _ _)
      have h0 : d ≠ '0' := h.leading hn d (by simp)
      refine ⟨NumSt.int, Or.inr rfl, ?_⟩
      have hstep : lexStep ⟨Mode.idle, toks⟩ d = some ⟨Mode.inNum NumSt.int [d], toks⟩ :=
        idleStep_digit toks d hd h0
      rw [List.foldlM_cons, hstep]
      simp only [Option.bind_eq_bind, Option.some_bind]
      rw [lex_digits ds (fun x hx => h.digits x (List.mem_cons_of_mem _ hx))]
      simp

theorem lex_negative (ds : List Char) (n : Nat) (h : IsNumeral ds n) (hn : n ≠ 0)
    (toks : List Token) :
    ('-' :: ds).foldlM lexStep ⟨Mode.idle, toks⟩
      = some ⟨Mode.inNum NumSt.int ('-' :: ds).reverse, toks⟩ := by
  have hne := h.nonempty
  cases ds with
  | nil => exact absurd rfl hne
  | cons d ds =>
    have hd := h.digits d (List.mem_cons_self _ _)
    have h0 : d ≠ '0' := h.leading hn d (by simp)
    have hstep1 : lexStep ⟨Mode.idle, toks⟩ '-' = some ⟨Mode.inNum NumSt.minus ['-'], toks⟩ :=
      rfl
    have hstep2 : lexStep ⟨Mode.inNum NumSt.minus ['-'], toks⟩ d
        = some ⟨Mode.inNum NumSt.int [d, '-'], toks⟩ := by
      simp [lexStep, numStep, hd, h0]
    rw [List.foldlM_cons, hstep1]
    simp only [Option.bind_eq_bind, Option.some_bind]
    rw [List.foldlM_cons, hstep2]
    simp only [Option.bind_eq_bind, Option.some_bind]
    rw [lex_digits ds (fun x hx => h.digits x (List.mem_cons_of_mem _ hx))]
    simp

theorem lex_to_string (x : Int) (toks : List Token) :
    ∃ st, (st = NumSt.zero ∨ st = NumSt.int) ∧
      (to_string x).toList.foldlM lexStep ⟨Mode.idle, toks⟩
        = some ⟨Mode.inNum st (to_string x).toList.reverse, toks⟩ := by
  by_cases hx : x < 0
  · rw [to_string_neg x hx]
    exact ⟨NumSt.int, Or.inr rfl,
      lex_negative _ _ (repr_isNumeral x.natAbs) (by omega) toks⟩
  · rw [to_string_nonneg x (by omega)]
    exact lex_numeral _ _ (repr_isNumeral x.natAbs) toks

theorem tokenize_response_body (port latency : Int) :
    tokenize (response_body port latency).toList = some (bodyTokens port latency) := by
  obtain ⟨st, hst, hlex⟩ := lex_to_string latency (headTokens port)
  unfold tokenize
  rw [response_body_toList, List.foldlM_append, lex_bodyHead]
  simp only [Option.bind_eq_bind, Option.some_bind]
  rw [List.foldlM_append, hlex]
  simp only [Option.bind_eq_bind, Option.some_bind]
  rw [lex_bodyTail port st hst]
  simp [lexFinish, tailTokens, headTokens, bodyTokens]

theorem parse_bodyTokens (port latency : Int) :
    parseValue ((bodyTokens port latency).length + 1) (bodyTokens port latency)
      = some (bodyJson port latency, []) := by
  rfl

theorem parseJson_response_body (port latency : Int) :
    parseJson (response_body port latency).toList = some (bodyJson port latency) := by
  unfold parseJson
  rw [tokenize_response_body]
  simp only [parse_bodyTokens]

/-! ## Lemmas: quoted strings -/

theorem lex_quotable (v : List Char) :
    quotable v = true → ∀ (acc : List Char) (toks : List Token),
      (v ++ ['"']).foldlM lexStep ⟨Mode.inStr acc, toks⟩
        = some ⟨Mode.idle, Token.str (acc.reverse ++ v) :: toks⟩ := by
  induction v using quotable.induct with
  | case1 => intro _ acc toks; simp [lexStep]
  | case2 c rest hc =>
    intro h
    unfold quotable at h
    rw [if_pos hc] at h
    exact absurd h (by decide)
  | case3 d rest2 hc ih =>
    intro h acc toks
    simp only [quotable, hc, if_false, if_true, Bool.and_eq_true, decide_eq_true_eq] at h
    obtain ⟨hd, hq⟩ := h
    subst hd
    have h1 : lexStep ⟨Mode.inStr acc, toks⟩ '\\' = some ⟨Mode.inEsc ('\\' :: acc), toks⟩ := rfl
    have h2 : lexStep ⟨Mode.inEsc ('\\' :: acc), toks⟩ 'n'
        = some ⟨Mode.inStr ('n' :: '\\' :: acc), toks⟩ := rfl
    simp only [List.cons_append, List.foldlM_cons, h1, h2, Option.bind_eq_bind,
      Option.some_bind]
    rw [ih hq]
    simp
  | case4 hc => intro h; exact absurd h (by decide)
  | case5 c rest hc hb ih =>
    intro h acc toks
    unfold quotable at h
    rw [if_neg hc, if_neg hb] at h
    have hq : c ≠ '"' := fun e => hc (Or.inl e)
    have hctl : ¬ c.toNat < 32 := fun e => hc (Or.inr e)
    have h1 : lexStep ⟨Mode.inStr acc, toks⟩ c = some ⟨Mode.inStr (c :: acc), toks⟩ := by
      simp [lexStep, hq, hb, hctl]
    simp only [List.cons_append, List.foldlM_cons, h1, Option.bind_eq_bind, Option.some_bind]
    rw [ih h]
    simp

theorem tokenize_quoted (v : List Char) (h : quotable v = true) :
    tokenize ('"' :: v ++ ['"']) = some [Token.str v] := by
  have h0 : lexStep ⟨Mode.idle, []⟩ '"' = some ⟨Mode.inStr [], []⟩ := rfl
  unfold tokenize
  rw [List.cons_append, List.foldlM_cons, h0]
  simp only [Option.bind_eq_bind, Option.some_bind]
  rw [lex_quotable v h]
  simp [lexFinish]

theorem quotable_chars (v : List Char) :
    quotable v = true → ∀ c ∈ v, c ≠ '"' ∧ 32 ≤ c.toNat := by
  induction v using quotable.induct with
  | case1 => intro _ c hc; simp at hc
  | case2 c rest hc =>
    intro h
    unfold quotable at h
    rw [if_pos hc] at h
    exact absurd h (by decide)
  | case3 d rest2 hc ih =>
    intro h c hmem
    simp only [quotable, hc, if_false, if_true, Bool.and_eq_true, decide_eq_true_eq] at h
    obtain ⟨hd, hq⟩ := h
    subst hd
    simp only [List.mem_cons] at hmem
    rcases hmem with e | e | e
    · rw [e]; decide
    · rw [e]; decide
    · exact ih hq c e
  | case4 hc => intro h; exact absurd h (by decide)
  | case5 c rest hc hb ih =>
    intro h x hmem
    unfold quotable at h
    rw [if_neg hc, if_neg hb] at h
    rw [List.mem_cons] at hmem
    rcases hmem with e | e
    · rw [e]
      exact ⟨fun e2 => hc (Or.inl e2), by
        have : ¬ c.toNat < 32 := fun e2 => hc (Or.inr e2)
        omega⟩
    · exact ih h x e

theorem quotable_backslash (v : List Char) :
    quotable v = true → ∀ i : Nat, v[i]? = some '\\' → v[i + 1]? = some 'n' := by
  induction v using quotable.induct with
  | case1 => intro _ i hi; simp at hi
  | case2 c rest hc =>
    intro h
    unfold quotable at h
    rw [if_pos hc] at h
    exact absurd h (by decide)
  | case3 d rest2 hc ih =>
    intro h i hi
    simp only [quotable, hc, if_false, if_true, Bool.and_eq_true, decide_eq_true_eq] at h
    obtain ⟨hd, hq⟩ := h
    subst hd
    match i with
    | 0 => simp
    | 1 => simp at hi
    | j + 2 =>
      simp only [List.getElem?_cons_succ] at hi ⊢
      exact ih hq j hi
  | case4 hc => intro h; exact absurd h (by decide)
  | case5 c rest hc hb ih =>
    intro h i hi
    unfold quotable at h
    rw [if_neg hc, if_neg hb] at h
    match i with
    | 0 =>
      simp only [List.getElem?_cons_zero, Option.some.injEq] at hi
      exact absurd hi hb
    | j + 1 =>
      simp only [List.getElem?_cons_succ] at hi ⊢
      exact ih h j hi

theorem quotable_engine (port : Int) : quotable (engine port).toList = true := by
  unfold engine; split <;> decide

theorem quotable_mock_output (port : Int) : quotable (mock_output port).toList = true := by
  unfold mock_output; split <;> decide

/-! ## Lemmas: the template of the specification and the accept loop -/

set_option maxRecDepth 100000 in
theorem tokenize_specBody (port latency : Int) :
    tokenize (specBody (engine port) latency (mock_output port)).toList
      = some (bodyTokens port latency) := by
  obtain ⟨st, hst, hlex⟩ := lex_to_string latency (headTokens port)
  have hsplit : (specBody (engine port) latency (mock_output port)).toList =
      ("\x7b\"status\":\"success\",\"engine\":\"".toList ++ (engine port).toList
        ++ "\",\"latency_ms\":".toList) ++ ((to_string latency).toList ++
      (",\"exit_code\":0,\"stdout\":\"".toList ++ (mock_output port).toList
        ++ "\"\x7d".toList)) := by
    simp [specBody, String.toList]
  have hhead : ("\x7b\"status\":\"success\",\"engine\":\"".toList ++ (engine port).toList
        ++ "\",\"latency_ms\":".toList).foldlM lexStep ⟨Mode.idle, []⟩
      = some ⟨Mode.idle, headTokens port⟩ := by
    unfold headTokens engine
    split
    · rfl
    · rfl
  have htail : (",\"exit_code\":0,\"stdout\":\"".toList ++ (mock_output port).toList
        ++ "\"\x7d".toList).foldlM lexStep ⟨Mode.inNum st (to_string latency).toList.reverse,
          headTokens port⟩
      = some ⟨Mode.idle, tailTokens port
          ++ Token.num (to_string latency).toList.reverse.reverse :: headTokens port⟩ := by
    unfold tailTokens mock_output
    rcases hst with rfl | rfl
    · split
      · rfl
      · rfl
    · split
      · rfl
      · rfl
  unfold tokenize
  rw [hsplit, List.foldlM_append, hhead]
  simp only [Option.bind_eq_bind, Option.some_bind]
  rw [List.foldlM_append, hlex]
  simp only [Option.bind_eq_bind, Option.some_bind]
  rw [htail]
  simp [lexFinish, tailTokens, headTokens, bodyTokens]

/-- The outcomes under which nothing disturbs the loop: `accept` calls only,
and a thread that starts for each successful one. -/
theorem quiet_tail (o : Outcome) (xs : List Outcome)
    (hq : ∀ x ∈ o :: xs, ∃ s t, x = Outcome.acceptReturns s t ∧ (0 ≤ s → t = true)) :
    ∀ x ∈ xs, ∃ s t, x = Outcome.acceptReturns s t ∧ (0 ≤ s → t = true) :=
  fun x hx => hq x (List.mem_cons_of_mem _ hx)

theorem accept_loop_quiet_append (server_fd port : Int) (xs ys : List Outcome) :
    (∀ x ∈ xs, ∃ s t, x = Outcome.acceptReturns s t ∧ (0 ≤ s → t = true)) →
    ∀ live : List Int,
      accept_loop server_fd port (xs ++ ys) live
        = ((accept_loop server_fd port xs live).1
            ++ (accept_loop server_fd port ys ((acceptedSockets xs).reverse ++ live)).1,
          (accept_loop server_fd port ys ((acceptedSockets xs).reverse ++ live)).2) := by
  induction xs with
  | nil => intro _ live; simp [accept_loop, acceptedSockets]
  | cons o xs ih =>
    intro hq live
    obtain ⟨s, t, ho, ht⟩ := hq o (List.mem_cons_self _ _)
    have ih2 := ih (quiet_tail o xs hq)
    subst ho
    by_cases h : s < 0
    · have h2 : ¬ 0 ≤ s := by omega
      simp [accept_loop, acceptedSockets, h, h2, ih2]
    · have h2 : 0 ≤ s := by omega
      have ht2 := ht h2
      subst ht2
      simp [accept_loop, acceptedSockets, h, h2, ih2]

theorem accept_loop_quiet_status (server_fd port : Int) (xs : List Outcome) :
    (∀ x ∈ xs, ∃ s t, x = Outcome.acceptReturns s t ∧ (0 ≤ s → t = true)) →
    ∀ live : List Int, (accept_loop server_fd port xs live).2 = Status.running := by
  induction xs with
  | nil => intro _ live; rfl
  | cons o xs ih =>
    intro hq live
    obtain ⟨s, t, ho, ht⟩ := hq o (List.mem_cons_self _ _)
    have ih2 := ih (quiet_tail o xs hq)
    subst ho
    by_cases h : s < 0
    · simp [accept_loop, h, ih2]
    · have ht2 := ht (by omega)
      subst ht2
      simp [accept_loop, h, ih2]

theorem dispatched_accept_loop (server_fd port : Int) (xs : List Outcome) :
    (∀ x ∈ xs, ∃ s t, x = Outcome.acceptReturns s t ∧ (0 ≤ s → t = true)) →
    ∀ live : List Int, dispatched (accept_loop server_fd port xs live).1
      = (acceptedSockets xs).map (fun a => (a, port)) := by
  induction xs with
  | nil => intro _ live; rfl
  | cons o xs ih =>
    intro hq live
    obtain ⟨s, t, ho, ht⟩ := hq o (List.mem_cons_self _ _)
    have ih2 := ih (quiet_tail o xs hq)
    subst ho
    by_cases h : s < 0
    · have h2 : ¬ 0 ≤ s := by omega
      simp [accept_loop, acceptedSockets, h, h2, dispatched, ih2]
    · have h2 : 0 ≤ s := by omega
      have ht2 := ht h2
      subst ht2
      simp [accept_loop, acceptedSockets, h, h2, dispatched, ih2]

theorem count_accept_loop (server_fd port : Int) (xs : List Outcome) :
    (∀ x ∈ xs, ∃ s t, x = Outcome.acceptReturns s t ∧ (0 ≤ s → t = true)) →
    ∀ live : List Int,
      List.count (Event.acceptCall server_fd) (accept_loop server_fd port xs live).1
        = xs.length := by
  induction xs with
  | nil => intro _ live; rfl
  | cons o xs ih =>
    intro hq live
    obtain ⟨s, t, ho, ht⟩ := hq o (List.mem_cons_self _ _)
    have ih2 := ih (quiet_tail o xs hq)
    subst ho
    by_cases h : s < 0
    · simp [accept_loop, h, ih2]
    · have ht2 := ht (by omega)
      subst ht2
      simp [accept_loop, h, ih2]

/-- The events of an undisturbed loop: `accept` calls, reports of failed
`accept` calls and dispatches only. -/
theorem accept_loop_quiet_events (server_fd port : Int) (xs : List Outcome) :
    (∀ x ∈ xs, ∃ s t, x = Outcome.acceptReturns s t ∧ (0 ≤ s → t = true)) →
    ∀ (live : List Int), ∀ e ∈ (accept_loop server_fd port xs live).1,
      e = Event.acceptCall server_fd ∨ e = Event.perror "Accept failed" ∨
        ∃ s, e = Event.dispatch s port := by
  induction xs with
  | nil => intro _ live e he; simp [accept_loop] at he
  | cons o xs ih =>
    intro hq live e he
    obtain ⟨s, t, ho, ht⟩ := hq o (List.mem_cons_self _ _)
    have ih2 := ih (quiet_tail o xs hq)
    subst ho
    by_cases h : s < 0
    · simp only [accept_loop, h, if_true, List.mem_cons] at he
      rcases he with he | he | he
      · exact Or.inl he
      · exact Or.inr (Or.inl he)
      · exact ih2 _ e he
    · have ht2 := ht (by omega)
      subst ht2
      simp only [accept_loop, h, if_false, if_true, List.mem_cons] at he
      rcases he with he | he | he
      · exact Or.inl he
      · exact Or.inr (Or.inr ⟨s, he⟩)
      · exact ih2 _ e he

theorem start_server_running (port : Int) (r : SetupResults) (outcomes : List Outcome)
    (h0 : r.socket ≠ 0) (h1 : r.setsockopt = 0) (h2 : 0 ≤ r.bind) (h3 : 0 ≤ r.listen) :
    start_server port r outcomes =
      ([Event.socketCall, Event.setsockoptCall r.socket, Event.bindCall r.socket port,
        Event.listenCall r.socket 5, Event.banner port]
          ++ (accept_loop r.socket port outcomes []).1,
        (accept_loop r.socket port outcomes []).2) := by
  have h2n : ¬ r.bind < 0 := by omega
  have h3n : ¬ r.listen < 0 := by omega
  simp [start_server, h0, h1, h2n, h3n]

theorem takeWhile_stop (p : List Byte) (c : Byte) (rest : List Byte)
    (hp : ∀ x ∈ p, inAlphabet x = true) (hc : inAlphabet c = false) :
    (p ++ c :: rest).takeWhile inAlphabet = p := by
  induction p with
  | nil => simp [List.takeWhile_cons, hc]
  | cons a p ih =>
    have ha := hp a (List.mem_cons_self _ _)
    rw [List.cons_append, List.takeWhile_cons, ha]
    simp only [if_true]
    rw [ih (fun x hx => hp x (List.mem_cons_of_mem _ hx))]

theorem takeWhile_all (p : List Byte) (hp : ∀ x ∈ p, inAlphabet x = true) :
    p.takeWhile inAlphabet = p := by
  induction p with
  | nil => rfl
  | cons a p ih =>
    have ha := hp a (List.mem_cons_self _ _)
    rw [List.takeWhile_cons, ha]
    simp only [if_true]
    rw [ih (fun x hx => hp x (List.mem_cons_of_mem _ hx))]

theorem printable_of_decide (l : List Char)
    (h : l.all (fun c => decide (32 ≤ c.toNat ∧ c.toNat < 127)) = true) :
    ∀ c ∈ l, 32 ≤ c.toNat ∧ c.toNat < 127 := by
  intro c hc
  have := List.all_eq_true.mp h c hc
  simpa using this

theorem printable_engine (port : Int) :
    ∀ c ∈ (engine port).toList, 32 ≤ c.toNat ∧ c.toNat < 127 := by
  apply printable_of_decide
  unfold engine; split <;> decide

theorem printable_mock_output (port : Int) :
    ∀ c ∈ (mock_output port).toList, 32 ≤ c.toNat ∧ c.toNat < 127 := by
  apply printable_of_decide
  unfold mock_output; split <;> decide

theorem perror_not_mem_accept_loop (server_fd port : Int) (xs : List Outcome) :
    ∀ live : List Int,
      Event.perror "Socket failed" ∉ (accept_loop server_fd port xs live).1 := by
  induction xs with
  | nil => intro live; simp [accept_loop]
  | cons o xs ih =>
    intro live
    cases o with
    | acceptReturns s t =>
      by_cases h : s < 0
      · simp [accept_loop, h, ih]
      · cases t <;> simp [accept_loop, h, ih]
    | handlerSigpipe fd =>
      by_cases h : fd ∈ live
      · simp [accept_loop, h]
      · simp [accept_loop, h, ih]

/-! ## The claims -/

/-- C1: the engine label of the response is `rust-native` exactly when the port
is 58000 (`RUST_PORT`) and `cpp-native` for every other port, the default 56000
included; the `engine` member of the response body is that label; and the
stdout text is chosen by the same test, so the pair of label and text is
always the Rust pair or the C++ pair. -/
theorem engine_label_iff_rust_port (port latency : Int) :
    RUST_PORT = 58000 ∧ CPP_PORT = 56000 ∧
    (engine port = "rust-native" ↔ port = 58000) ∧
    (engine port = "cpp-native" ↔ port ≠ 58000) ∧
    engine CPP_PORT = "cpp-native" ∧
    (parseJson (response_body port latency).toList).bind (Json.member "engine".toList)
      = some (Json.str (engine port).toList) ∧
    (parseJson (response_body port latency).toList).bind (Json.member "stdout".toList)
      = some (Json.str (mock_output port).toList) ∧
    ((engine port, mock_output port) =
        ("rust-native",
          "Finished release [optimized] target(s) in 0.1s\\nOutput: Rust binary executed successfully on port 58000.")
      ↔ port = 58000) ∧
    ((engine port, mock_output port) =
        ("cpp-native",
          "Build: g++ -O3 aura_vfs_optimized\\nOutput: C++ execution completed on port 56000.")
      ↔ port ≠ 58000) := by
  have hparse := parseJson_response_body port latency
  refine ⟨rfl, rfl, ?_, ?_, by decide, ?_, ?_, ?_, ?_⟩
  · unfold engine RUST_PORT
    by_cases h : port = 58000
    · simp [h]
    · simp [h]
  · unfold engine RUST_PORT
    by_cases h : port = 58000
    · simp [h]
    · simp [h]
  · rw [hparse]; rfl
  · rw [hparse]; rfl
  · unfold engine mock_output RUST_PORT
    by_cases h : port = 58000
    · simp [h]
    · simp [h]
  · unfold engine mock_output RUST_PORT
    by_cases h : port = 58000
    · simp [h]
    · simp [h]

/-- C2: for every socket, port and latency, and for any two sequences of bytes
delivered on the connection, `handle_connection` does the same: it sends
`http_response port latency`, which depends on the port and the latency only,
and closes the socket; the response starts with the status line
`HTTP/1.1 200 OK`. -/
theorem response_independent_of_request (socket_fd port latency : Int)
    (req1 req2 : List Byte) :
    handle_connection socket_fd port req1 latency
      = handle_connection socket_fd port req2 latency ∧
    handle_connection socket_fd port req1 latency
      = [SocketAction.send socket_fd (http_response port latency),
          SocketAction.close socket_fd] ∧
    sentData (handle_connection socket_fd port req1 latency) = [http_response port latency] ∧
    (read_buffer req1).length = 30000 ∧
    "HTTP/1.1 200 OK\r\n".toList <+: (http_response port latency).toList := by
  refine ⟨rfl, rfl, rfl, ?_, ?_⟩
  · unfold read_buffer
    rw [List.length_append, List.length_replicate]
    have : (List.take 30000 req1).length ≤ 30000 := by
      rw [List.length_take]; omega
    omega
  · rw [http_response_toList]
    exact ⟨_, rfl⟩

/-- C3: for every port and latency, the response splits at its first blank line
into a header block and the response body; the header lines are, in order, the
status line, `Content-Type: application/json`, `Access-Control-Allow-Origin: *`,
`Content-Length` and `Connection: close`; the decimal number on the
`Content-Length` line is the number of bytes of the body; and every character
of the response is one byte. -/
theorem content_length_is_body_length (port latency : Int) :
    ∃ head : List Char,
      splitBlankLine (http_response port latency).toList
        = some (head, (response_body port latency).toList) ∧
      splitLines head =
        ["HTTP/1.1 200 OK".toList, "Content-Type: application/json".toList,
          "Access-Control-Allow-Origin: *".toList,
          "Content-Length: ".toList
            ++ (to_string (response_body port latency).utf8ByteSize).toList,
          "Connection: close".toList] ∧
      (headerValue "Content-Length".toList (splitLines head)).bind readDecimal
        = some (response_body port latency).utf8ByteSize ∧
      (response_body port latency).utf8ByteSize = (response_body port latency).toList.length ∧
      (∀ c ∈ (http_response port latency).toList, c.toNat < 128) := by
  have hcl := content_length_line_noCR (response_body port latency).utf8ByteSize
  have hnum := to_string_nat_numeral (response_body port latency).utf8ByteSize
  have h1 : ∀ c ∈ "HTTP/1.1 200 OK".toList, c ≠ '\r' := noCR_of_decide _ (by decide)
  have h2 : ∀ c ∈ "Content-Type: application/json".toList, c ≠ '\r' :=
    noCR_of_decide _ (by decide)
  have h3 : ∀ c ∈ "Access-Control-Allow-Origin: *".toList, c ≠ '\r' :=
    noCR_of_decide _ (by decide)
  have h5 : ∀ c ∈ "Connection: close".toList, c ≠ '\r' := noCR_of_decide _ (by decide)
  refine ⟨"HTTP/1.1 200 OK".toList ++ '\r' :: '\n' ::
      ("Content-Type: application/json".toList ++ '\r' :: '\n' ::
      ("Access-Control-Allow-Origin: *".toList ++ '\r' :: '\n' ::
      (("Content-Length: ".toList ++
          (to_string (response_body port latency).utf8ByteSize).toList) ++ '\r' :: '\n' ::
      "Connection: close".toList))), ?_, ?_, ?_, ?_, ?_⟩
  · rw [http_response_toList,
      splitBlankLine_line _ _ _ h1 (by intro c hc; cases hc; decide) (by decide),
      splitBlankLine_line _ _ _ h2 (by intro c hc; cases hc; decide) (by decide),
      splitBlankLine_line _ _ _ h3 (by intro c hc; cases hc; decide) (by simp),
      splitBlankLine_line _ _ _ hcl (by intro c hc; cases hc; decide) (by decide),
      splitBlankLine_skip _ _ h5, splitBlankLine_here]
    rfl
  · rw [splitLines_line _ _ h1, splitLines_line _ _ h2, splitLines_line _ _ h3,
      splitLines_line _ _ hcl, splitLines_single _ h5]
  · rw [splitLines_line _ _ h1, splitLines_line _ _ h2, splitLines_line _ _ h3,
      splitLines_line _ _ hcl, splitLines_single _ h5]
    have e : headerValue "Content-Length".toList
        ["HTTP/1.1 200 OK".toList, "Content-Type: application/json".toList,
          "Access-Control-Allow-Origin: *".toList,
          "Content-Length: ".toList
            ++ (to_string (response_body port latency).utf8ByteSize).toList,
          "Connection: close".toList]
        = some (to_string (response_body port latency).utf8ByteSize).toList := by
      simp [headerValue, List.isPrefixOf, String.toList]
    rw [e]
    exact readDecimal_numeral _ _ hnum
  · exact utf8ByteSize_ascii _ (response_body_ascii port latency)
  · intro c hc
    rw [http_response_toList] at hc
    simp only [List.mem_append, List.mem_cons] at hc
    rcases hc with hc | hc | hc | hc | hc | hc | hc | hc | hc | (hc | hc) | hc | hc | hc | hc
      | hc | hc | hc | hc
    all_goals first
      | exact ascii_of_decide _ (by decide) c hc
      | (rw [hc]; decide)
      | exact to_string_ascii _ c hc
      | exact response_body_ascii port latency c hc

/-- C4: for every port and latency the response body parses as a JSON object
with exactly the five members `status`, `engine`, `latency_ms`, `exit_code`,
`stdout`, in this order, whose values are the string `success`, the engine
label of the port, the decimal text of the latency, the number `0` and the
fixed text of the port; and its tokens are those of the template of the
specification, which differs from it in whitespace between tokens only. -/
theorem response_body_is_spec_object (port latency : Int) :
    parseJson (response_body port latency).toList =
      some (Json.obj
        [("status".toList, Json.str "success".toList),
          ("engine".toList, Json.str (engine port).toList),
          ("latency_ms".toList, Json.num (to_string latency).toList),
          ("exit_code".toList, Json.num "0".toList),
          ("stdout".toList, Json.str (mock_output port).toList)]) ∧
    tokenize (response_body port latency).toList
      = tokenize (specBody (engine port) latency (mock_output port)).toList ∧
    (tokenize (response_body port latency).toList).isSome = true ∧
    exit_code = 0 := by
  refine ⟨parseJson_response_body port latency, ?_, ?_, rfl⟩
  · rw [tokenize_response_body, tokenize_specBody]
  · rw [tokenize_response_body]; rfl

/-- C5: for every port, the engine label and the stdout text contain no double
quote and no control character, and the letter n follows every backslash in
them; each of them between double quotes is one JSON string token; and for
every port and latency the response body is well-formed JSON. -/
theorem inserted_values_are_json_strings (port latency : Int) :
    (∀ c ∈ (engine port).toList, c ≠ '"' ∧ 32 ≤ c.toNat ∧ c.toNat < 127) ∧
    (∀ c ∈ (mock_output port).toList, c ≠ '"' ∧ 32 ≤ c.toNat ∧ c.toNat < 127) ∧
    (∀ i : Nat, (engine port).toList[i]? = some '\\' → (engine port).toList[i + 1]? = some 'n') ∧
    (∀ i : Nat, (mock_output port).toList[i]? = some '\\' →
      (mock_output port).toList[i + 1]? = some 'n') ∧
    tokenize ('"' :: (engine port).toList ++ ['"']) = some [Token.str (engine port).toList] ∧
    tokenize ('"' :: (mock_output port).toList ++ ['"'])
      = some [Token.str (mock_output port).toList] ∧
    (parseJson (response_body port latency).toList).isSome = true := by
  have he := quotable_engine port
  have hm := quotable_mock_output port
  refine ⟨?_, ?_, quotable_backslash _ he, quotable_backslash _ hm, tokenize_quoted _ he,
    tokenize_quoted _ hm, ?_⟩
  · intro c hc
    exact ⟨(quotable_chars _ he c hc).1, printable_engine port c hc⟩
  · intro c hc
    exact ⟨(quotable_chars _ hm c hc).1, printable_mock_output port c hc⟩
  · rw [parseJson_response_body]; rfl

/-- C6: when `socket` returns -1, `start_server` does not stop at that step: for
every port and every outcome of the other calls it goes on to call
`setsockopt` on the descriptor -1 and never reports `Socket failed`; with
`setsockopt` failing on that descriptor the process exits at the `setsockopt`
step. -/
theorem start_server_socket_failure_goes_on (port sso bnd lst : Int)
    (outcomes : List Outcome) :
    Event.setsockoptCall (-1) ∈ (start_server port ⟨-1, sso, bnd, lst⟩ outcomes).1 ∧
    Event.perror "Socket failed" ∉ (start_server port ⟨-1, sso, bnd, lst⟩ outcomes).1 ∧
    start_server port ⟨-1, -1, bnd, lst⟩ outcomes =
      ([Event.socketCall, Event.setsockoptCall (-1), Event.perror "setsockopt",
        Event.exit EXIT_FAILURE], Status.exited EXIT_FAILURE) := by
  refine ⟨?_, ?_, by simp [start_server]⟩
  · unfold start_server
    simp only [show ((-1 : Int) = 0) = False from by simp, if_false]
    split
    · simp
    · split
      · simp
      · split
        · simp
        · simp
  · unfold start_server
    simp only [show ((-1 : Int) = 0) = False from by simp, if_false]
    split
    · simp
    · split
      · simp
      · split
        · simp
        · simp [perror_not_mem_accept_loop]

/-- C7, as stated, fails: with the set-up done, the loop is left when the
`std::thread` of line 96 cannot be started (the successful `accept` of socket 4
then dispatches no handler and `std::terminate` ends the process), and when the
handler of socket 4 raises `SIGPIPE` in `send` (the process is killed and the
connection 5 is never accepted). -/
theorem accept_loop_can_be_left :
    start_server 56000 ⟨3, 0, 0, 0⟩ [Outcome.acceptReturns 4 false] =
      ([Event.socketCall, Event.setsockoptCall 3, Event.bindCall 3 56000,
        Event.listenCall 3 5, Event.banner 56000, Event.acceptCall 3, Event.terminate],
        Status.aborted) ∧
    acceptedSockets [Outcome.acceptReturns 4 false] = [4] ∧
    dispatched (start_server 56000 ⟨3, 0, 0, 0⟩ [Outcome.acceptReturns 4 false]).1 = [] ∧
    start_server 56000 ⟨3, 0, 0, 0⟩
        [Outcome.acceptReturns 4 true, Outcome.handlerSigpipe 4, Outcome.acceptReturns 5 true] =
      ([Event.socketCall, Event.setsockoptCall 3, Event.bindCall 3 56000,
        Event.listenCall 3 5, Event.banner 56000, Event.acceptCall 3,
        Event.dispatch 4 56000, Event.sigpipe 4], Status.killed) ∧
    acceptedSockets
        [Outcome.acceptReturns 4 true, Outcome.handlerSigpipe 4, Outcome.acceptReturns 5 true]
      = [4, 5] := by
  decide

/-- C7, amended: once the four set-up checks have passed, for every finite
sequence of `accept` outcomes in which the thread of every successful `accept`
starts and no handler raises `SIGPIPE`, the process is still running; the
handlers dispatched are, in order, one for each non-negative result, called
with that socket and the port of the listener; every result is consumed by one
`accept` call; the trace holds no `exit`, `std::terminate` or `SIGPIPE`; and
the trace of a longer sequence is this trace followed by the loop on the
further outcomes. -/
theorem accept_loop_dispatches (port : Int) (r : SetupResults) (outcomes : List Outcome)
    (h0 : r.socket ≠ 0) (h1 : r.setsockopt = 0) (h2 : 0 ≤ r.bind) (h3 : 0 ≤ r.listen)
    (hq : ∀ o ∈ outcomes, ∃ s t, o = Outcome.acceptReturns s t ∧ (0 ≤ s → t = true)) :
    (start_server port r outcomes).2 = Status.running ∧
    dispatched (start_server port r outcomes).1
      = (acceptedSockets outcomes).map (fun a => (a, port)) ∧
    List.count (Event.acceptCall r.socket) (start_server port r outcomes).1
      = outcomes.length ∧
    (∀ e ∈ (start_server port r outcomes).1,
      (∀ code, e ≠ Event.exit code) ∧ e ≠ Event.terminate ∧ ∀ fd, e ≠ Event.sigpipe fd) ∧
    (∀ more : List Outcome, start_server port r (outcomes ++ more)
      = ((start_server port r outcomes).1
          ++ (accept_loop r.socket port more (acceptedSockets outcomes).reverse).1,
        (accept_loop r.socket port more (acceptedSockets outcomes).reverse).2)) := by
  rw [start_server_running port r outcomes h0 h1 h2 h3]
  refine ⟨accept_loop_quiet_status _ _ _ hq [], ?_, ?_, ?_, ?_⟩
  · simp only [List.cons_append, List.nil_append, dispatched]
    exact dispatched_accept_loop _ _ _ hq []
  · simp only [List.cons_append, List.nil_append]
    rw [List.count_cons_of_ne (by simp), List.count_cons_of_ne (by simp),
      List.count_cons_of_ne (by simp), List.count_cons_of_ne (by simp),
      List.count_cons_of_ne (by simp)]
    exact count_accept_loop _ _ _ hq []
  · intro e he
    simp only [List.cons_append, List.nil_append, List.mem_cons] at he
    rcases he with he | he | he | he | he | he
    · subst he; simp
    · subst he; simp
    · subst he; simp
    · subst he; simp
    · subst he; simp
    · rcases accept_loop_quiet_events _ _ _ hq [] e he with h | h | ⟨s, h⟩
      · subst h; simp
      · subst h; simp
      · subst h; simp
  · intro more
    rw [start_server_running port r (outcomes ++ more) h0 h1 h2 h3,
      accept_loop_quiet_append _ _ _ _ hq []]
    simp

/-- The instance of the amended C7 for the listener on port 56000 with
descriptor 3 and the `accept` results 4, -1, 5, with both threads starting. -/
theorem accept_loop_dispatches_witness :
    (∀ o ∈ [Outcome.acceptReturns 4 true, Outcome.acceptReturns (-1) false,
        Outcome.acceptReturns 5 true],
      ∃ s t, o = Outcome.acceptReturns s t ∧ (0 ≤ s → t = true)) ∧
    (start_server 56000 ⟨3, 0, 0, 0⟩ [Outcome.acceptReturns 4 true,
      Outcome.acceptReturns (-1) false, Outcome.acceptReturns 5 true]).2 = Status.running ∧
    dispatched (start_server 56000 ⟨3, 0, 0, 0⟩ [Outcome.acceptReturns 4 true,
      Outcome.acceptReturns (-1) false, Outcome.acceptReturns 5 true]).1
      = [(4, 56000), (5, 56000)] :=
  have hq : ∀ o ∈ [Outcome.acceptReturns 4 true, Outcome.acceptReturns (-1) false,
      Outcome.acceptReturns 5 true],
      ∃ s t, o = Outcome.acceptReturns s t ∧ (0 ≤ s → t = true) := by
    intro o ho
    simp only [List.mem_cons, List.mem_singleton, List.not_mem_nil, or_false] at ho
    rcases ho with rfl | rfl | rfl
    · exact ⟨4, true, rfl, fun _ => rfl⟩
    · exact ⟨-1, false, rfl, fun h => absurd h (by decide)⟩
    · exact ⟨5, true, rfl, fun _ => rfl⟩
  have h := accept_loop_dispatches 56000 ⟨3, 0, 0, 0⟩ [Outcome.acceptReturns 4 true,
    Outcome.acceptReturns (-1) false, Outcome.acceptReturns 5 true]
    (by decide) (by decide) (by decide) (by decide) hq
  ⟨hq, h.1, h.2.1⟩

/-- C8: decoding the standard base64 encoding of any byte sequence gives the
sequence back; the encoding is that of RFC 4648, as its test vectors show. -/
theorem base64_decode_encode (b : List Byte) :
    base64_decode (base64_encode b) = b ∧
    base64_encode (bytesOf "") = bytesOf "" ∧
    base64_encode (bytesOf "f") = bytesOf "Zg==" ∧
    base64_encode (bytesOf "fo") = bytesOf "Zm8=" ∧
    base64_encode (bytesOf "foo") = bytesOf "Zm9v" ∧
    base64_encode (bytesOf "foob") = bytesOf "Zm9vYg==" ∧
    base64_encode (bytesOf "fooba") = bytesOf "Zm9vYmE=" ∧
    base64_encode (bytesOf "foobar") = bytesOf "Zm9vYmFy" := by
  refine ⟨?_, by decide, by decide, by decide, by decide, by decide, by decide, by decide⟩
  unfold base64_decode
  rw [decodeLoop_encode]
  rfl

/-- C9: `base64_decode` of a string is `base64_decode` of its longest prefix of
alphabet characters, whatever follows the first foreign byte; the output has
`6 * n / 8` bytes (rounded down) for a prefix of `n` alphabet characters; the
alphabet is the 64 characters of `b64_chars`, and `=` is not one of them. -/
theorem base64_decode_stops_at_foreign (s : List Byte) :
    base64_decode s = base64_decode (s.takeWhile inAlphabet) ∧
    (base64_decode s).length = 6 * (s.takeWhile inAlphabet).length / 8 ∧
    (∀ c : Byte, inAlphabet c = true ↔ c ∈ bytesOf b64_chars) ∧
    (bytesOf b64_chars).length = 64 ∧
    inAlphabet padByte = false ∧
    (∀ (p : List Byte) (c : Byte) (rest : List Byte), (∀ x ∈ p, inAlphabet x = true) →
      inAlphabet c = false →
        base64_decode (p ++ c :: rest) = base64_decode p ∧
        (base64_decode (p ++ c :: rest)).length = 6 * p.length / 8) := by
  refine ⟨decodeLoop_takeWhile _ _ _ _, base64_decode_length s, inAlphabet_iff, by decide,
    by decide, ?_⟩
  intro p c rest hp hc
  have h1 : base64_decode (p ++ c :: rest) = base64_decode p := by
    unfold base64_decode
    rw [decodeLoop_takeWhile, takeWhile_stop p c rest hp hc]
  refine ⟨h1, ?_⟩
  rw [h1, base64_decode_length, takeWhile_all p hp]

/-- C10: for every input the bytes `base64_decode` produces with the 32-bit
accumulator are those it produces with an unbounded accumulator, although the
accumulator does overflow (six characters `/` leave -1 in it, not 2^36 - 1):
every byte is pushed with a shift of 0, 2 or 4, and for these shifts the byte
depends on the low 12 bits of the accumulator only. -/
theorem base64_decode_overflow_harmless (s : List Byte) :
    base64_decode s = base64_decode_unbounded s ∧
    (∀ k ∈ emitShifts s (-8), k = 0 ∨ k = 2 ∨ k = 4) ∧
    (∀ (v w : Int) (k : Nat), k = 0 ∨ k = 2 ∨ k = 4 → v % 4096 = w % 4096 →
      toByte (Int.land (shr v k) 0xFF) = toByte (Int.land (shr w k) 0xFF)) ∧
    finalVal (bytesOf "//////") 0 = -1 ∧
    finalValZ (bytesOf "//////") 0 = 68719476735 := by
  refine ⟨decodeLoop_eq_decodeLoopZ s 0 0 (-8) [] rfl (by norm_num) (by norm_num),
    shifts_even s (-8) (by norm_num) (by norm_num) (by norm_num), ?_, by decide, by decide⟩
  intro v w k hk h
  rw [emit_eq, emit_eq, low12 v w k hk h]

end AuraBridge
